import Mathlib

/-!
Verification development for the market-data-source repository.

The repository generates synthetic OHLC candles and ticks from a seeded
random walk, with a configuration model (src/config.rs), core data types
(src/types.rs), a price kernel (src/algorithms/random_walk.rs), a regime
control subsystem (src/regimes/controller.rs), a volatility regime
detector (src/regimes/mod.rs, src/regimes/volatility.rs), rolling
statistics (src/regimes/statistics.rs, src/regimes/detector.rs) and an
orchestrator (src/generator.rs).

The embedding below models the Rust `Decimal` and `f64` numeric types as
exact rationals (ℚ): every claim settled here concerns comparisons,
clamping, control flow and exact fixed-point arithmetic, where the
rational model is faithful (floating-point representation caveats are
noted per claim).  `u64`/`usize` become ℕ, `i64` becomes ℤ, fallible
constructors return `Except`.
-/

namespace MarketData

/-- Direction of market trend (src/config.rs `TrendDirection`). -/
inductive TrendDirection where
  | Bullish
  | Bearish
  | Sideways
deriving DecidableEq, Repr

/-- Time intervals for candle periods (src/types.rs `TimeInterval`). -/
inductive TimeInterval where
  | OneMinute
  | FiveMinutes
  | FifteenMinutes
  | ThirtyMinutes
  | OneHour
  | FourHours
  | OneDay
  | Custom (s : ℕ)
deriving DecidableEq, Repr

/-- Interval duration in seconds (src/types.rs `TimeInterval::seconds`). -/
def TimeInterval.seconds : TimeInterval → ℕ
  | .OneMinute => 60
  | .FiveMinutes => 300
  | .FifteenMinutes => 900
  | .ThirtyMinutes => 1800
  | .OneHour => 3600
  | .FourHours => 14400
  | .OneDay => 86400
  | .Custom s => s

/-- Interval duration in milliseconds (src/types.rs `TimeInterval::millis`). -/
def TimeInterval.millis (t : TimeInterval) : ℕ :=
  t.seconds * 1000

/-- Configuration for market data generation (src/config.rs
`GeneratorConfig`).  Prices, trend strength, volatility are `Decimal` in
the source, modelled as ℚ. -/
structure GeneratorConfig where
  starting_price : ℚ
  min_price : ℚ
  max_price : ℚ
  trend_direction : TrendDirection
  trend_strength : ℚ
  volatility : ℚ
  time_interval : TimeInterval
  num_points : ℕ
  seed : Option ℕ
  base_volume : ℕ
  volume_volatility : ℚ
deriving DecidableEq, Repr

/-- Default starting price (src/config.rs `default_starting_price`). -/
def default_starting_price : ℚ := 100

/-- Default minimum price (src/config.rs `default_min_price`). -/
def default_min_price : ℚ := 1

/-- Default maximum price, the large sentinel 1e15 used for "effectively
unbounded" (src/config.rs `default_max_price`). -/
def default_max_price : ℚ := 1000000000000000

/-- Default volatility 0.02 (src/config.rs `default_volatility`). -/
def default_volatility : ℚ := 2 / 100

/-- Default configuration (src/config.rs `impl Default for GeneratorConfig`). -/
def GeneratorConfig.default : GeneratorConfig where
  starting_price := default_starting_price
  min_price := default_min_price
  max_price := default_max_price
  trend_direction := .Sideways
  trend_strength := 0
  volatility := default_volatility
  time_interval := .OneMinute
  num_points := 100
  seed := none
  base_volume := 100000
  volume_volatility := 3 / 10

/-- Smart defaults (src/config.rs `GeneratorConfig::apply_smart_defaults`):
adjusts min/max price, volatility and trend strength from the values
already staged. -/
def GeneratorConfig.apply_smart_defaults (c : GeneratorConfig) : GeneratorConfig :=
  let c :=
    if c.min_price = default_min_price ∧ 1000 < c.starting_price then
      { c with min_price := c.starting_price * (1 / 100) }
    else c
  let c :=
    if c.max_price = default_max_price ∧ c.starting_price ≠ default_starting_price then
      { c with max_price := c.starting_price * 100 }
    else c
  let c :=
    if c.starting_price ≤ c.min_price then
      { c with min_price := c.starting_price * (1 / 2) }
    else c
  let c :=
    if c.max_price ≤ c.starting_price then
      { c with max_price := c.starting_price * 2 }
    else c
  let c :=
    if c.volatility = default_volatility then
      if 10000 < c.starting_price then { c with volatility := 5 / 100 }
      else if c.starting_price < 10 then { c with volatility := 5 / 1000 }
      else c
    else c
  if c.trend_strength = 0 then
    match c.trend_direction with
    | .Bullish => { c with trend_strength := 1 / 10000 }
    | .Bearish => { c with trend_strength := -(1 / 10000) }
    | .Sideways => c
  else c

/-- Validation error taxonomy (src/config.rs `ConfigError`). -/
inductive ConfigError where
  | InvalidPrice (msg : String)
  | InvalidVolatility (msg : String)
  | InvalidTrend (msg : String)
  | InvalidParameter (msg : String)
deriving DecidableEq, Repr

/-- Configuration validator (src/config.rs `GeneratorConfig::validate`):
checks each invariant in source order and reports the first failure. -/
def GeneratorConfig.validate (c : GeneratorConfig) : Except ConfigError Unit :=
  if c.starting_price ≤ 0 then
    .error (.InvalidPrice "Starting price must be positive")
  else if c.min_price ≤ 0 then
    .error (.InvalidPrice "Minimum price must be positive")
  else if c.max_price ≤ c.min_price then
    .error (.InvalidPrice "Minimum price must be less than maximum price")
  else if c.volatility < 0 then
    .error (.InvalidVolatility "Volatility must be non-negative")
  else if c.trend_strength < -1 ∨ 1 < c.trend_strength then
    .error (.InvalidTrend "Trend strength must be between -100 percent and +100 percent")
  else if c.num_points = 0 then
    .error (.InvalidParameter "Number of points must be positive")
  else if c.base_volume = 0 then
    .error (.InvalidParameter "Base volume must be positive")
  else if c.volume_volatility < 0 then
    .error (.InvalidVolatility "Volume volatility must be non-negative")
  else
    .ok ()

/-- Builder finalizer (src/config.rs `ConfigBuilder::build`): runs the
validator on the staged configuration and returns it unchanged on
success.  It does not invoke `apply_smart_defaults`. -/
def ConfigBuilder.build (c : GeneratorConfig) : Except ConfigError GeneratorConfig :=
  match c.validate with
  | .error e => .error e
  | .ok _ => .ok c

/-- The staged configuration used to exhibit that `build` skips the smart
defaults: only the starting price is set, to 2000. -/
def stagedHighPrice : GeneratorConfig :=
  { GeneratorConfig.default with starting_price := 2000 }

/-- C6: `GeneratorConfig::validate` succeeds exactly when
`starting_price > 0`, `0 < min_price < max_price`, `volatility ≥ 0`,
`|trend_strength| ≤ 1`, `num_points > 0`, `base_volume > 0` and
`volume_volatility ≥ 0`; on failure the error is one of the four
`ConfigError` variants.  Validation is a pure function of the
configuration (it takes the config by shared reference in the source and
returns only the verdict), so it modifies nothing. -/
theorem validate_ok_iff_invariants (c : GeneratorConfig) :
    (c.validate = .ok () ↔
      (0 < c.starting_price ∧ 0 < c.min_price ∧ c.min_price < c.max_price ∧
       0 ≤ c.volatility ∧ -1 ≤ c.trend_strength ∧ c.trend_strength ≤ 1 ∧
       0 < c.num_points ∧ 0 < c.base_volume ∧ 0 ≤ c.volume_volatility)) ∧
    (c.validate = .ok () ∨ ∃ msg,
       c.validate = .error (.InvalidPrice msg) ∨
       c.validate = .error (.InvalidVolatility msg) ∨
       c.validate = .error (.InvalidTrend msg) ∨
       c.validate = .error (.InvalidParameter msg)) := by
  constructor
  · constructor
    · intro h
      unfold GeneratorConfig.validate at h
      split_ifs at h with h1 h2 h3 h4 h5 h6 h7 h8
      push_neg at h1 h2 h3 h4 h5 h8
      exact ⟨h1, h2, h3, h4, h5.1, h5.2, by omega, by omega, h8⟩
    · rintro ⟨a1, a2, a3, a4, a5, a6, a7, a8, a9⟩
      unfold GeneratorConfig.validate
      split_ifs with h1 h2 h3 h4 h5 h6 h7 h8
      · exact absurd a1 (by linarith)
      · exact absurd a2 (by linarith)
      · exact absurd a3 (by linarith)
      · exact absurd a4 (by linarith)
      · rcases h5 with h5 | h5
        · exact absurd a5 (by linarith)
        · exact absurd a6 (by linarith)
      · omega
      · omega
      · exact absurd a9 (by linarith)
      · rfl
  · cases hv : c.validate with
    | ok u => cases u; exact Or.inl rfl
    | error e =>
      cases e with
      | InvalidPrice m => exact Or.inr ⟨m, Or.inl rfl⟩
      | InvalidVolatility m => exact Or.inr ⟨m, Or.inr (Or.inl rfl)⟩
      | InvalidTrend m => exact Or.inr ⟨m, Or.inr (Or.inr (Or.inl rfl))⟩
      | InvalidParameter m => exact Or.inr ⟨m, Or.inr (Or.inr (Or.inr rfl))⟩

/-- C4 counterexample: `ConfigBuilder::build` succeeds on a staged
configuration whose starting price is 2000 while leaving `min_price` at
its default 1, even though the smart defaults of the specification would
raise `min_price` to `0.01 * 2000 = 20`.  The successfully built
configuration therefore does not have the smart defaults applied. -/
theorem build_skips_smart_defaults :
    ConfigBuilder.build stagedHighPrice = .ok stagedHighPrice ∧
    stagedHighPrice.min_price = 1 ∧
    stagedHighPrice.apply_smart_defaults.min_price = 20 := by
  refine ⟨?_, by norm_num [stagedHighPrice, GeneratorConfig.default,
    default_min_price], ?_⟩
  · norm_num [ConfigBuilder.build, GeneratorConfig.validate, stagedHighPrice,
      GeneratorConfig.default, default_starting_price, default_min_price,
      default_max_price, default_volatility]
  · norm_num [GeneratorConfig.apply_smart_defaults, stagedHighPrice,
      GeneratorConfig.default, default_starting_price, default_min_price,
      default_max_price, default_volatility]

/-- C4 amended: `ConfigBuilder::build` only runs the validator; a
successful build returns the staged configuration exactly as staged
(smart defaults are a separate method, invoked by the HTTP handler, not
by `build`). -/
theorem build_is_validate_then_identity (c r : GeneratorConfig)
    (h : ConfigBuilder.build c = .ok r) :
    r = c ∧ c.validate = .ok () := by
  unfold ConfigBuilder.build at h
  cases hv : c.validate with
  | error e => rw [hv] at h; cases h
  | ok u =>
    rw [hv] at h
    cases u
    refine ⟨?_, rfl⟩
    injection h with h2
    exact h2.symm


/-- Witness for the amended C4 theorem at the default configuration. -/
theorem build_is_validate_then_identity_witness :
    GeneratorConfig.default = GeneratorConfig.default ∧
    GeneratorConfig.default.validate = .ok () :=
  build_is_validate_then_identity GeneratorConfig.default GeneratorConfig.default
    (by norm_num [ConfigBuilder.build, GeneratorConfig.validate,
      GeneratorConfig.default, default_starting_price, default_min_price,
      default_max_price, default_volatility])

/-- OHLC candle (src/types.rs `OHLC`): prices are `Decimal`, volume `u64`,
timestamp milliseconds `i64`.  The field `open` is a Lean keyword, hence
`open_`. -/
structure OHLC where
  open_ : ℚ
  high : ℚ
  low : ℚ
  close : ℚ
  volume : ℕ
  timestamp : ℤ
deriving DecidableEq, Repr

/-- Constructor (src/types.rs `OHLC::new`). -/
def OHLC.new (o h l c : ℚ) (v : ℕ) (ts : ℤ) : OHLC :=
  ⟨o, h, l, c, v, ts⟩

/-- Consistency check (src/types.rs `OHLC::is_valid`): high is at least
max(open, close), low at most min(open, close), high at least low, and
all four prices strictly positive. -/
def OHLC.is_valid (x : OHLC) : Bool :=
  decide (max x.open_ x.close ≤ x.high) &&
  decide (x.low ≤ min x.open_ x.close) &&
  decide (x.low ≤ x.high) &&
  decide (0 < x.open_) && decide (0 < x.high) &&
  decide (0 < x.low) && decide (0 < x.close)

/-- Configuration as consumed by the kernel file
src/algorithms/random_walk.rs.  That file reads `f64` price fields and an
`avg_volume` / `effective_drift` interface which the checked-in config.rs
no longer provides; the fields here are exactly the ones the kernel file
accesses, with `max_price : Option ℚ` where `none` models the
`f64::INFINITY` sentinel tested by `max_price != f64::INFINITY`. -/
structure RWConfig where
  starting_price : ℚ
  min_price : ℚ
  max_price : Option ℚ
  trend_direction : TrendDirection
  trend_strength : ℚ
  volatility : ℚ
  avg_volume : ℕ
  volume_volatility : ℚ
deriving DecidableEq, Repr

/-- Modelled from the spec: `effective_drift` is called by
src/algorithms/random_walk.rs but its definition is not in the checked-in
sources; §4.C of the spec gives `drift = sign(trend_direction) ·
trend_strength` with Sideways mapped to 0. -/
def RWConfig.effective_drift (c : RWConfig) : ℚ :=
  match c.trend_direction with
  | .Bullish => c.trend_strength
  | .Bearish => -c.trend_strength
  | .Sideways => 0

/-- One step of the random walk (src/algorithms/random_walk.rs
`RandomWalkGenerator::next_price`); `shock` stands for the standard
normal sample.  The price is clamped below by `min_price`, above by
`max_price` when finite, and finally raised to at least 0.001. -/
def next_price (c : RWConfig) (price shock : ℚ) : ℚ :=
  let drift := c.effective_drift
  let return_rate := drift + c.volatility * shock
  let new_price := price * (1 + return_rate)
  let new_price := max new_price c.min_price
  let new_price :=
    match c.max_price with
    | some m => min new_price m
    | none => new_price
  max new_price (1 / 1000)

/-- Intra-period price path (src/algorithms/random_walk.rs
`generate_candle_prices`): one `next_price` call per shock, returning the
visited prices and the final current price. -/
def generate_candle_prices (c : RWConfig) (price : ℚ) :
    List ℚ → List ℚ × ℚ
  | [] => ([], price)
  | s :: rest =>
    let p := next_price c price s
    let r := generate_candle_prices c p rest
    (p :: r.1, r.2)

/-- Maximum over the price list: the source folds `f64::max` starting
from `f64::NEG_INFINITY`, which on the nonempty lists produced (ten ticks
per candle) is the list maximum; the empty case is unreachable because
`prices[0]` is read first. -/
def fold_high : List ℚ → ℚ
  | [] => 0
  | p :: rest => rest.foldl max p

/-- Minimum over the price list, folding `f64::min` from `f64::INFINITY`
in the source; see `fold_high`. -/
def fold_low : List ℚ → ℚ
  | [] => 0
  | p :: rest => rest.foldl min p

/-- Volume draw (src/algorithms/random_walk.rs `generate_volume`):
`avg_volume · (1 + volume_volatility · shock)`, clamped below at 1.0 and
cast to `u64` (truncating toward zero, saturating at the maximum). -/
def generate_volume (c : RWConfig) (shock : ℚ) : ℕ :=
  let volume := (c.avg_volume : ℚ) * (1 + c.volume_volatility * shock)
  min (Int.floor (max volume 1)).toNat (2 ^ 64 - 1)

/-- Candle construction (src/algorithms/random_walk.rs
`generate_candle`): the shocks list carries the ten per-tick normal
draws, `vshock` the volume draw; open is the first visited price, close
the last, high/low the extremes. -/
def generate_candle (c : RWConfig) (price : ℚ) (shocks : List ℚ)
    (vshock : ℚ) (ts : ℤ) : OHLC :=
  let prices := (generate_candle_prices c price shocks).1
  OHLC.new (prices.headD 0) (fold_high prices) (fold_low prices)
    (prices.getLast?.getD 0) (generate_volume c vshock) ts

/-- Every price step is at least 0.001 thanks to the final clamp. -/
theorem next_price_ge_milli (c : RWConfig) (price shock : ℚ) :
    1 / 1000 ≤ next_price c price shock :=
  le_max_right _ _

/-- Single-step bounds for the clamps of `next_price`: the result never
drops below `min_price` (given positive, ordered bounds) and never
exceeds a finite `max_price` that is at least 0.001. -/
theorem next_price_step_bounds (c : RWConfig) (price shock : ℚ)
    (hmax : ∀ m, c.max_price = some m → c.min_price < m ∧ (1 : ℚ) / 1000 ≤ m) :
    c.min_price ≤ next_price c price shock ∧
    (∀ m, c.max_price = some m → next_price c price shock ≤ m) := by
  unfold next_price
  cases hm : c.max_price with
  | none =>
    refine ⟨le_trans (le_max_right _ _) (le_max_left _ _), ?_⟩
    intro m hm2
    simp [hm] at hm2
  | some m =>
    obtain ⟨hlt, hmil⟩ := hmax m hm
    constructor
    · exact le_trans (le_min (le_max_right _ _) (le_of_lt hlt)) (le_max_left _ _)
    · intro m2 hm2
      injection hm2 with hm2
      subst hm2
      exact max_le (min_le_right _ _) hmil

/-- The produced price-path lists have one price per shock. -/
theorem generate_candle_prices_length (c : RWConfig) (price : ℚ)
    (shocks : List ℚ) :
    (generate_candle_prices c price shocks).1.length = shocks.length := by
  induction shocks generalizing price with
  | nil => rfl
  | cons s rest ih => simp [generate_candle_prices, ih]

/-- Every visited price on the path is at least 0.001. -/
theorem generate_candle_prices_ge_milli (c : RWConfig) (price : ℚ)
    (shocks : List ℚ) :
    ∀ p ∈ (generate_candle_prices c price shocks).1, (1 : ℚ) / 1000 ≤ p := by
  induction shocks generalizing price with
  | nil => intro p hp; simp [generate_candle_prices] at hp
  | cons s rest ih =>
    intro p hp
    simp only [generate_candle_prices, List.mem_cons] at hp
    rcases hp with hp | hp
    · subst hp; exact next_price_ge_milli _ _ _
    · exact ih _ p hp

/-- The fold of `max` over a list never drops below its initial value. -/
theorem le_foldl_max_init (l : List ℚ) (p : ℚ) : p ≤ l.foldl max p := by
  induction l generalizing p with
  | nil => simp
  | cons s t ih => exact le_trans (le_max_left p s) (ih (max p s))

/-- The fold of `min` over a list never exceeds its initial value. -/
theorem foldl_min_init_le (l : List ℚ) (p : ℚ) : l.foldl min p ≤ p := by
  induction l generalizing p with
  | nil => simp
  | cons s t ih => exact le_trans (ih (min p s)) (min_le_left p s)

/-- A fold of `max` over a list starting at `p` dominates `p` and every
element of the list. -/
theorem foldl_max_dominates (rest : List ℚ) (p x : ℚ)
    (hx : x = p ∨ x ∈ rest) : x ≤ rest.foldl max p := by
  induction rest generalizing p with
  | nil =>
    rcases hx with hx | hx
    · simp [hx]
    · simp at hx
  | cons s t ih =>
    rcases hx with hx | hx
    · subst hx
      exact le_trans (le_max_left x s) (le_foldl_max_init t _)
    · rcases List.mem_cons.mp hx with hx | hx
      · subst hx
        exact le_trans (le_max_right p x) (le_foldl_max_init t _)
      · exact ih (max p s) (Or.inr hx)

/-- A fold of `min` over a list starting at `p` is below `p` and every
element of the list. -/
theorem foldl_min_below (rest : List ℚ) (p x : ℚ)
    (hx : x = p ∨ x ∈ rest) : rest.foldl min p ≤ x := by
  induction rest generalizing p with
  | nil =>
    rcases hx with hx | hx
    · simp [hx]
    · simp at hx
  | cons s t ih =>
    rcases hx with hx | hx
    · subst hx
      exact le_trans (foldl_min_init_le t _) (min_le_left x s)
    · rcases List.mem_cons.mp hx with hx | hx
      · subst hx
        exact le_trans (foldl_min_init_le t _) (min_le_right p x)
      · exact ih (min p s) (Or.inr hx)

/-- The fold of `max` over a nonempty list is one of its members. -/
theorem foldl_max_mem (rest : List ℚ) (p : ℚ) :
    rest.foldl max p ∈ p :: rest := by
  induction rest generalizing p with
  | nil => simp
  | cons s t ih =>
    have h := ih (max p s)
    rcases List.mem_cons.mp h with h | h
    · rcases max_choice p s with hc | hc <;> rw [List.foldl_cons, h, hc] <;> simp
    · simp only [List.foldl_cons]
      exact List.mem_cons_of_mem _ (List.mem_cons_of_mem _ h)

/-- The fold of `min` over a nonempty list is one of its members. -/
theorem foldl_min_mem (rest : List ℚ) (p : ℚ) :
    rest.foldl min p ∈ p :: rest := by
  induction rest generalizing p with
  | nil => simp
  | cons s t ih =>
    have h := ih (min p s)
    rcases List.mem_cons.mp h with h | h
    · rcases min_choice p s with hc | hc <;> rw [List.foldl_cons, h, hc] <;> simp
    · simp only [List.foldl_cons]
      exact List.mem_cons_of_mem _ (List.mem_cons_of_mem _ h)

/-- C3: every candle built by `generate_candle` from the ten per-candle
ticks satisfies the OHLC invariant of `OHLC::is_valid`: high at least
max(open, close), low at most min(open, close), high at least low, and
all four prices strictly positive (each visited price is clamped to at
least 0.001). -/
theorem generate_candle_is_valid (c : RWConfig) (price : ℚ)
    (shocks : List ℚ) (vshock : ℚ) (ts : ℤ)
    (h10 : shocks.length = 10) :
    (generate_candle c price shocks vshock ts).is_valid = true := by
  unfold generate_candle OHLC.new
  set prices := (generate_candle_prices c price shocks).1 with hpr
  have hlen : prices.length = 10 := by
    rw [hpr, generate_candle_prices_length, h10]
  have hmilli : ∀ p ∈ prices, (1 : ℚ) / 1000 ≤ p := by
    rw [hpr]; exact generate_candle_prices_ge_milli c price shocks
  obtain ⟨p0, rest, hcons⟩ : ∃ p0 rest, prices = p0 :: rest := by
    cases hc : prices with
    | nil => rw [hc] at hlen; simp at hlen
    | cons a b => exact ⟨a, b, rfl⟩
  rw [hcons]
  have hne : p0 :: rest ≠ [] := by simp
  have hlast_mem : (p0 :: rest).getLast hne ∈ p0 :: rest := List.getLast_mem hne
  have hlastq : (p0 :: rest).getLast?.getD 0 = (p0 :: rest).getLast hne := by
    rw [List.getLast?_eq_getLast _ hne]
    rfl
  set lastp := (p0 :: rest).getLast hne with hlp
  have hmem_of : ∀ x ∈ p0 :: rest, x ≤ fold_high (p0 :: rest) := by
    intro x hx
    unfold fold_high
    rcases List.mem_cons.mp hx with hx | hx
    · exact foldl_max_dominates rest p0 x (Or.inl hx)
    · exact foldl_max_dominates rest p0 x (Or.inr hx)
  have hmin_of : ∀ x ∈ p0 :: rest, fold_low (p0 :: rest) ≤ x := by
    intro x hx
    unfold fold_low
    rcases List.mem_cons.mp hx with hx | hx
    · exact foldl_min_below rest p0 x (Or.inl hx)
    · exact foldl_min_below rest p0 x (Or.inr hx)
  have hhigh_mem : fold_high (p0 :: rest) ∈ p0 :: rest := foldl_max_mem rest p0
  have hlow_mem : fold_low (p0 :: rest) ∈ p0 :: rest := foldl_min_mem rest p0
  have hmem_milli : ∀ x ∈ p0 :: rest, (0 : ℚ) < x := by
    intro x hx
    have := hmilli x (hcons ▸ hx)
    linarith
  have hopen_mem : p0 ∈ p0 :: rest := List.mem_cons_self p0 rest
  unfold OHLC.is_valid
  simp only [List.headD_cons, hlastq]
  have h1 : max p0 lastp ≤ fold_high (p0 :: rest) :=
    max_le (hmem_of p0 hopen_mem) (hmem_of lastp hlast_mem)
  have h2 : fold_low (p0 :: rest) ≤ min p0 lastp :=
    le_min (hmin_of p0 hopen_mem) (hmin_of lastp hlast_mem)
  have h3 : fold_low (p0 :: rest) ≤ fold_high (p0 :: rest) :=
    le_trans (hmin_of p0 hopen_mem) (hmem_of p0 hopen_mem)
  have h4 : (0 : ℚ) < p0 := hmem_milli p0 hopen_mem
  have h5 : (0 : ℚ) < fold_high (p0 :: rest) := hmem_milli _ hhigh_mem
  have h6 : (0 : ℚ) < fold_low (p0 :: rest) := hmem_milli _ hlow_mem
  have h7 : (0 : ℚ) < lastp := hmem_milli _ hlast_mem
  simp [h1, h2, h3, h4, h5, h6, h7]

/-- A kernel configuration in the shape of the spec scenario S2, used as
concrete input for the candle-invariant witness. -/
def rwSample : RWConfig where
  starting_price := 100
  min_price := 50
  max_price := some 150
  trend_direction := .Sideways
  trend_strength := 0
  volatility := 1 / 2
  avg_volume := 10000
  volume_volatility := 3 / 10

/-- Witness for C3 at a concrete configuration and ten zero shocks. -/
theorem generate_candle_is_valid_witness :
    (List.replicate 10 (0 : ℚ)).length = 10 ∧
    (generate_candle rwSample 100 (List.replicate 10 (0 : ℚ)) 0 0).is_valid
      = true :=
  ⟨by decide, generate_candle_is_valid rwSample 100 _ 0 0 (by decide)⟩

/-- A validated configuration with price bounds below 0.001: starting
price 0.0003, bounds (0.0001, 0.0005). -/
def tinyBounds : RWConfig where
  starting_price := 3 / 10000
  min_price := 1 / 10000
  max_price := some (5 / 10000)
  trend_direction := .Sideways
  trend_strength := 0
  volatility := 1 / 2
  avg_volume := 1000
  volume_volatility := 3 / 10

/-- C2 counterexample: under the validated bounds 0 < 0.0001 < 0.0005 the
kernel returns the price 0.001, strictly above `max_price`, because the
final positivity clamp `max(·, 0.001)` is applied after the bound clamps.
-/
theorem next_price_violates_max_price :
    0 < tinyBounds.min_price ∧
    tinyBounds.max_price = some (5 / 10000) ∧
    tinyBounds.min_price < 5 / 10000 ∧
    0 < tinyBounds.starting_price ∧
    next_price tinyBounds (3 / 10000) 0 = 1 / 1000 ∧
    ¬ next_price tinyBounds (3 / 10000) 0 ≤ 5 / 10000 := by
  refine ⟨by norm_num [tinyBounds], rfl, by norm_num [tinyBounds], by norm_num [tinyBounds], ?_, ?_⟩
  · norm_num [next_price, tinyBounds, RWConfig.effective_drift]
  · norm_num [next_price, tinyBounds, RWConfig.effective_drift]

/-- C2 amended: for a configuration with `0 < min_price` and a finite
`max_price` exceeding `min_price` and at least the positivity floor
0.001, every price returned by `next_price`, and hence every price on a
candle path, lies in `[min_price, max_price]`; when `max_price` is the
infinity sentinel only the lower bound applies. -/
theorem next_price_respects_bounds (c : RWConfig) (price shock : ℚ)
    (shocks : List ℚ) (hmin : 0 < c.min_price)
    (hmax : ∀ m, c.max_price = some m → c.min_price < m ∧ (1 : ℚ) / 1000 ≤ m) :
    (c.min_price ≤ next_price c price shock ∧
      (∀ m, c.max_price = some m → next_price c price shock ≤ m)) ∧
    (∀ p ∈ (generate_candle_prices c price shocks).1,
      c.min_price ≤ p ∧ ∀ m, c.max_price = some m → p ≤ m) := by
  refine ⟨next_price_step_bounds c price shock hmax, ?_⟩
  induction shocks generalizing price with
  | nil => intro p hp; simp [generate_candle_prices] at hp
  | cons s rest ih =>
    intro p hp
    simp only [generate_candle_prices, List.mem_cons] at hp
    rcases hp with hp | hp
    · subst hp
      exact next_price_step_bounds c price s hmax
    · exact ih _ p hp

/-- Witness for the amended C2 theorem at the S2-style configuration:
bounds 50 and 150 around price 100 with a unit shock. -/
theorem next_price_respects_bounds_witness :
    0 < rwSample.min_price ∧
    rwSample.min_price ≤ next_price rwSample 100 1 ∧
    next_price rwSample 100 1 ≤ 150 := by
  have h := next_price_respects_bounds rwSample 100 1 [] (by norm_num [rwSample])
    (by intro m hm; rw [show rwSample.max_price = some 150 from rfl] at hm;
        injection hm with hm; subst hm; norm_num [rwSample])
  exact ⟨by norm_num [rwSample], h.1.1, h.1.2 150 rfl⟩

/-- C10: the emitted volume is always at least 1: the sampled value is
clamped below at 1.0 before the truncating cast to `u64`, for every
average volume, volume volatility and shock. -/
theorem generate_volume_ge_one (c : RWConfig) (shock : ℚ) :
    1 ≤ generate_volume c shock := by
  unfold generate_volume
  have h1 : (1 : ℚ) ≤ max ((c.avg_volume : ℚ) * (1 + c.volume_volatility * shock)) 1 :=
    le_max_right _ _
  have h2 : (1 : ℤ) ≤ Int.floor (max ((c.avg_volume : ℚ) * (1 + c.volume_volatility * shock)) 1) := by
    rw [Int.le_floor]
    exact_mod_cast h1
  have h3 : 1 ≤ (Int.floor (max ((c.avg_volume : ℚ) * (1 + c.volume_volatility * shock)) 1)).toNat := by
    omega
  have h4 : (1 : ℕ) ≤ 2 ^ 64 - 1 := by norm_num
  exact le_min h3 h4

/-- Market regime states (src/regimes/mod.rs `MarketRegime`); the
`Normal` payload carries mean, standard deviation and optional bias. -/
inductive MarketRegime where
  | Bull
  | Bear
  | Sideways
  | Normal (mean : ℚ) (std_dev : ℚ) (bias : Option ℚ)
deriving DecidableEq, Repr

/-- A scheduled regime segment (src/regimes/controller.rs
`RegimeSegment`). -/
structure RegimeSegment where
  regime : MarketRegime
  duration : ℕ
  config : GeneratorConfig
  transition_duration : Option ℕ
deriving DecidableEq, Repr

/-- Default per-regime configuration (src/regimes/controller.rs
`RegimeSegment::default_config_for_regime`). -/
def default_config_for_regime (r : MarketRegime) : GeneratorConfig :=
  match r with
  | .Bull =>
    { GeneratorConfig.default with
        trend_direction := .Bullish, trend_strength := 5 / 1000,
        volatility := 15 / 1000 }
  | .Bear =>
    { GeneratorConfig.default with
        trend_direction := .Bearish, trend_strength := 7 / 1000,
        volatility := 25 / 1000 }
  | .Sideways =>
    { GeneratorConfig.default with
        trend_direction := .Sideways, trend_strength := 0,
        volatility := 10 / 1000 }
  | .Normal _ sd bias =>
    { GeneratorConfig.default with
        trend_direction := .Sideways, trend_strength := bias.getD 0,
        volatility := sd }

/-- Segment constructor (src/regimes/controller.rs `RegimeSegment::new`). -/
def RegimeSegment.new (r : MarketRegime) (d : ℕ) : RegimeSegment :=
  ⟨r, d, default_config_for_regime r, none⟩

/-- Sets a transition duration (src/regimes/controller.rs
`RegimeSegment::with_transition`). -/
def RegimeSegment.with_transition (s : RegimeSegment) (td : ℕ) : RegimeSegment :=
  { s with transition_duration := some td }

/-- Regime schedule (src/regimes/controller.rs `RegimeSchedule`): a FIFO
of segments, progress counters, a repeat flag and the frozen original
segment list. -/
structure RegimeSchedule where
  segments : List RegimeSegment
  current_segment_progress : ℕ
  total_progress : ℕ
  repeat_ : Bool
  original_segments : List RegimeSegment
deriving DecidableEq, Repr

/-- Constructor (src/regimes/controller.rs `RegimeSchedule::new`). -/
def RegimeSchedule.new (segs : List RegimeSegment) : RegimeSchedule :=
  ⟨segs, 0, 0, false, segs⟩

/-- Repeating constructor (src/regimes/controller.rs
`RegimeSchedule::repeating`). -/
def RegimeSchedule.repeating (segs : List RegimeSegment) : RegimeSchedule :=
  { RegimeSchedule.new segs with repeat_ := true }

/-- Current segment (src/regimes/controller.rs
`RegimeSchedule::current_segment`). -/
def RegimeSchedule.current_segment (s : RegimeSchedule) : Option RegimeSegment :=
  s.segments.head?

/-- One advance step (src/regimes/controller.rs `RegimeSchedule::advance`):
increment both progress counters; when the incremented in-segment
progress reaches the head duration, pop the head, reset the in-segment
progress, and reload the original segments when empty and repeating. -/
def RegimeSchedule.advance (s : RegimeSchedule) : RegimeSchedule :=
  let s1 := { s with
    current_segment_progress := s.current_segment_progress + 1,
    total_progress := s.total_progress + 1 }
  match s1.segments with
  | [] => s1
  | seg :: rest =>
    if seg.duration ≤ s1.current_segment_progress then
      let segs2 := if rest.isEmpty && s1.repeat_ then s1.original_segments else rest
      { s1 with segments := segs2, current_segment_progress := 0 }
    else s1

/-- Completion flag (src/regimes/controller.rs
`RegimeSchedule::is_complete`): empty queue and not repeating. -/
def RegimeSchedule.is_complete (s : RegimeSchedule) : Bool :=
  s.segments.isEmpty && !s.repeat_

/-- `n` consecutive advance calls. -/
def advanceN : ℕ → RegimeSchedule → RegimeSchedule
  | 0, s => s
  | n + 1, s => (advanceN n s).advance

/-- Advancing distributes over addition of step counts. -/
theorem advanceN_add (a b : ℕ) (s : RegimeSchedule) :
    advanceN (a + b) s = advanceN b (advanceN a s) := by
  induction b with
  | zero => rfl
  | succ b ih => rw [← Nat.add_assoc]; simp only [advanceN, ih]

/-- While strictly inside the head segment, advancing only moves the
progress counters. -/
theorem advanceN_within_segment (seg : RegimeSegment)
    (rest orig : List RegimeSegment) (tp j : ℕ) (hj : j < seg.duration) :
    advanceN j ⟨seg :: rest, 0, tp, false, orig⟩ =
      ⟨seg :: rest, j, tp + j, false, orig⟩ := by
  induction j with
  | zero => rfl
  | succ j ih =>
    have hj2 : j < seg.duration := Nat.lt_of_succ_lt hj
    simp only [advanceN, ih hj2]
    unfold RegimeSchedule.advance
    have hnot : ¬ seg.duration ≤ j + 1 := by omega
    simp [hnot]
    omega

/-- Exactly `duration` advances consume the head segment of a
non-repeating schedule. -/
theorem advanceN_consume_segment (seg : RegimeSegment)
    (rest orig : List RegimeSegment) (tp : ℕ) (hd : 1 ≤ seg.duration) :
    advanceN seg.duration ⟨seg :: rest, 0, tp, false, orig⟩ =
      ⟨rest, 0, tp + seg.duration, false, orig⟩ := by
  obtain ⟨k, hk⟩ : ∃ k, seg.duration = k + 1 := ⟨seg.duration - 1, by omega⟩
  rw [hk]
  simp only [advanceN]
  rw [advanceN_within_segment seg rest orig tp k (by omega)]
  unfold RegimeSchedule.advance
  have hle : seg.duration ≤ k + 1 := by omega
  simp [hle, hk]
  omega

/-- Running a non-repeating schedule with positive segment durations: the
queue stays nonempty strictly before the total duration and is exactly
exhausted at the total duration. -/
theorem run_nonrepeating (segs : List RegimeSegment)
    (orig : List RegimeSegment) (tp : ℕ)
    (hd : ∀ sg ∈ segs, 1 ≤ sg.duration) :
    (∀ n < (segs.map fun sg => sg.duration).sum,
      (advanceN n ⟨segs, 0, tp, false, orig⟩).segments ≠ []) ∧
    advanceN ((segs.map fun sg => sg.duration).sum) ⟨segs, 0, tp, false, orig⟩
      = ⟨[], 0, tp + (segs.map fun sg => sg.duration).sum, false, orig⟩ := by
  induction segs generalizing tp with
  | nil =>
    constructor
    · intro n hn
      simp at hn
    · simp [advanceN]
  | cons seg rest ih =>
    have hd1 : 1 ≤ seg.duration := hd seg (List.mem_cons_self _ _)
    have hdr : ∀ sg ∈ rest, 1 ≤ sg.duration :=
      fun sg h => hd sg (List.mem_cons_of_mem _ h)
    have hsum : ((seg :: rest).map fun sg => sg.duration).sum
        = seg.duration + (rest.map fun sg => sg.duration).sum := by
      simp
    constructor
    · intro n hn
      rw [hsum] at hn
      by_cases hcase : n < seg.duration
      · rw [advanceN_within_segment seg rest orig tp n hcase]
        simp
      · push_neg at hcase
        obtain ⟨m, hm⟩ : ∃ m, n = seg.duration + m := ⟨n - seg.duration, by omega⟩
        have hmlt : m < (rest.map fun sg => sg.duration).sum := by omega
        rw [hm, advanceN_add, advanceN_consume_segment seg rest orig tp hd1]
        exact (ih (tp + seg.duration) hdr).1 m hmlt
    · rw [hsum, advanceN_add, advanceN_consume_segment seg rest orig tp hd1,
        (ih (tp + seg.duration) hdr).2]
      simp [Nat.add_assoc]

/-- Advancing never changes the repeat flag. -/
theorem advance_preserves_repeat (s : RegimeSchedule) :
    (s.advance).repeat_ = s.repeat_ := by
  unfold RegimeSchedule.advance
  cases s.segments with
  | nil => rfl
  | cons seg rest =>
    by_cases h : seg.duration ≤ s.current_segment_progress + 1 <;> simp [h]

/-- Any number of advances preserves the repeat flag. -/
theorem advanceN_preserves_repeat (n : ℕ) (s : RegimeSchedule) :
    (advanceN n s).repeat_ = s.repeat_ := by
  induction n with
  | zero => rfl
  | succ n ih => rw [advanceN, advance_preserves_repeat, ih]

/-- A zero-duration segment exhibiting the boundary failure of the
schedule-accounting claim. -/
def zeroSegment : RegimeSegment := RegimeSegment.new .Bull 0

/-- C5 counterexample: a schedule holding a single segment of duration 0
has total duration `Σ dᵢ = 0`, yet after exactly 0 advance calls
`is_complete` is still false (the segment is still queued), contradicting
the claim that `is_complete` is true after exactly `Σ dᵢ` advances. -/
theorem schedule_zero_duration_stays_incomplete :
    ((RegimeSchedule.new [zeroSegment]).segments.map fun sg => sg.duration).sum = 0 ∧
    (advanceN 0 (RegimeSchedule.new [zeroSegment])).is_complete = false := by
  exact ⟨rfl, rfl⟩

/-- C5 amended: for segments of positive duration, a non-repeating
schedule reports `is_complete = false` after fewer than `Σ dᵢ` advances
and `is_complete = true` after exactly `Σ dᵢ` advances; a repeating
schedule never reports completion. -/
theorem schedule_accounting (segs : List RegimeSegment)
    (hd : ∀ sg ∈ segs, 1 ≤ sg.duration) :
    (∀ n < (segs.map fun sg => sg.duration).sum,
      (advanceN n (RegimeSchedule.new segs)).is_complete = false) ∧
    (advanceN ((segs.map fun sg => sg.duration).sum)
      (RegimeSchedule.new segs)).is_complete = true ∧
    (∀ (segs2 : List RegimeSegment) (n : ℕ),
      (advanceN n (RegimeSchedule.repeating segs2)).is_complete = false) := by
  refine ⟨?_, ?_, ?_⟩
  · intro n hn
    have h := (run_nonrepeating segs segs 0 hd).1 n hn
    unfold RegimeSchedule.is_complete
    have hnew : RegimeSchedule.new segs = ⟨segs, 0, 0, false, segs⟩ := rfl
    rw [hnew]
    cases hseg : (advanceN n (⟨segs, 0, 0, false, segs⟩ : RegimeSchedule)).segments with
    | nil => exact absurd hseg h
    | cons a l => rfl
  · have h := (run_nonrepeating segs segs 0 hd).2
    unfold RegimeSchedule.is_complete
    rw [show RegimeSchedule.new segs = ⟨segs, 0, 0, false, segs⟩ from rfl, h]
    rfl
  · intro segs2 n
    unfold RegimeSchedule.is_complete
    have h : (advanceN n (RegimeSchedule.repeating segs2)).repeat_ = true := by
      rw [advanceN_preserves_repeat]
      rfl
    rw [h]
    simp

/-- The two-segment schedule used as concrete witness input. -/
def witnessSegs : List RegimeSegment :=
  [RegimeSegment.new .Bull 2, RegimeSegment.new .Bear 1]

/-- Witness for the amended C5 theorem: durations (2, 1), incomplete
after 2 advances, complete after 3, and a repeating schedule that is
still incomplete after 5 advances. -/
theorem schedule_accounting_witness :
    (advanceN 2 (RegimeSchedule.new witnessSegs)).is_complete = false ∧
    (advanceN 3 (RegimeSchedule.new witnessSegs)).is_complete = true ∧
    (advanceN 5 (RegimeSchedule.repeating witnessSegs)).is_complete = false := by
  have h := schedule_accounting witnessSegs (by decide)
  refine ⟨?_, ?_, h.2.2 witnessSegs 5⟩
  · have := h.1 2 (by decide)
    exact this
  · have hsum : ((witnessSegs.map fun sg => sg.duration).sum) = 3 := by decide
    have := h.2.1
    rw [hsum] at this
    exact this

/-- Regime state held by the detector (src/regimes/mod.rs `RegimeState`). -/
structure RegimeState where
  current_regime : MarketRegime
  confidence : ℚ
  duration : ℕ
  start_timestamp : ℤ
  start_price : ℚ
deriving DecidableEq, Repr

/-- Transition predicate (src/regimes/mod.rs
`RegimeState::should_transition`): Rust parses the source expression as
`(new_regime != current && new_confidence > 0.6) || confidence < 0.3`. -/
def RegimeState.should_transition (st : RegimeState) (new_regime : MarketRegime)
    (new_confidence : ℚ) : Bool :=
  (decide (new_regime ≠ st.current_regime) && decide (3 / 5 < new_confidence)) ||
    decide (st.confidence < 3 / 10)

/-- State reset on transition (src/regimes/mod.rs
`RegimeState::transition`): new regime and confidence, duration back to
1, fresh start timestamp and price. -/
def RegimeState.transition (_ : RegimeState) (new_regime : MarketRegime)
    (confidence : ℚ) (ts : ℤ) (price : ℚ) : RegimeState :=
  ⟨new_regime, confidence, 1, ts, price⟩

/-- Duration bump (src/regimes/mod.rs `RegimeState::increment_duration`). -/
def RegimeState.increment_duration (st : RegimeState) : RegimeState :=
  { st with duration := st.duration + 1 }

/-- The state-update block of `VolatilityRegimeDetector::update`
(src/regimes/volatility.rs lines 276-285), given the freshly detected
regime and confidence for the incoming candle: transition when
`should_transition` fires, otherwise average the confidence and bump the
duration when the detected regime matches, otherwise leave the state
untouched. -/
def update_state (st : RegimeState) (regime : MarketRegime) (confidence : ℚ)
    (ts : ℤ) (price : ℚ) : RegimeState :=
  if st.should_transition regime confidence then
    st.transition regime confidence ts price
  else if st.current_regime = regime then
    let st2 := st.increment_duration
    { st2 with confidence := (st2.confidence + confidence) / 2 }
  else st

/-- Propositional characterization of `update_state`: the transition arm
fires exactly on the `should_transition` condition. -/
theorem update_state_eq (st : RegimeState) (r : MarketRegime) (conf : ℚ)
    (ts : ℤ) (price : ℚ) :
    update_state st r conf ts price =
      if (r ≠ st.current_regime ∧ 3 / 5 < conf) ∨ st.confidence < 3 / 10 then
        ⟨r, conf, 1, ts, price⟩
      else if st.current_regime = r then
        { st with duration := st.duration + 1,
                  confidence := (st.confidence + conf) / 2 }
      else st := by
  unfold update_state RegimeState.should_transition RegimeState.transition
  unfold RegimeState.increment_duration
  by_cases h1 : (r ≠ st.current_regime ∧ 3 / 5 < conf) ∨ st.confidence < 3 / 10
  · have hb : (decide (r ≠ st.current_regime) && decide ((3 : ℚ) / 5 < conf) ||
        decide (st.confidence < 3 / 10)) = true := by
      simp only [Bool.or_eq_true, Bool.and_eq_true, decide_eq_true_eq]
      tauto
    simp [hb, h1]
  · have hb : (decide (r ≠ st.current_regime) && decide ((3 : ℚ) / 5 < conf) ||
        decide (st.confidence < 3 / 10)) = false := by
      simp only [Bool.or_eq_false_iff, Bool.and_eq_false_iff, decide_eq_false_iff_not]
      tauto
    simp [hb, h1]

/-- A state with running confidence 0.2 (below 0.3) in a Bull regime of
duration 3. -/
def lowConfState : RegimeState := ⟨.Bull, 1 / 5, 3, 0, 100⟩

/-- C7 counterexample: with current confidence 0.2 (below 0.3) and the
same regime newly detected with confidence 0.5, no transition to a
different regime occurs (the regime persists), yet the duration is reset
to 1 instead of incremented to 4 and the confidence is replaced by 0.5
instead of averaged to 0.35 — the low-confidence arm of
`should_transition` fires even for the identical regime and calls
`transition`. -/
theorem persistence_resets_on_low_confidence :
    (update_state lowConfState .Bull (1 / 2) 5 101).current_regime
      = lowConfState.current_regime ∧
    (update_state lowConfState .Bull (1 / 2) 5 101).duration = 1 ∧
    (update_state lowConfState .Bull (1 / 2) 5 101).duration
      ≠ lowConfState.duration + 1 ∧
    (update_state lowConfState .Bull (1 / 2) 5 101).confidence
      ≠ (lowConfState.confidence + 1 / 2) / 2 := by
  have hres : update_state lowConfState .Bull (1 / 2) 5 101
      = ⟨.Bull, 1 / 2, 1, 5, 101⟩ := by
    rw [update_state_eq]
    rw [if_pos]
    exact Or.inr (by norm_num [lowConfState])
  rw [hres]
  refine ⟨rfl, rfl, by norm_num [lowConfState], by norm_num [lowConfState]⟩

/-- C7 amended: the update moves to a different regime exactly when the
detected regime differs and either the new confidence exceeds 0.6 or the
running confidence is below 0.3; when the detected regime matches and
the running confidence is at least 0.3 the confidence is averaged and
the duration incremented; when the detected regime matches but the
running confidence is below 0.3 the state is re-initialized (duration 1,
confidence replaced); when the detected regime differs and neither
threshold fires the state is unchanged. -/
theorem update_state_policy (st : RegimeState) (r : MarketRegime)
    (conf : ℚ) (ts : ℤ) (price : ℚ) :
    ((update_state st r conf ts price).current_regime ≠ st.current_regime ↔
      (r ≠ st.current_regime ∧ (3 / 5 < conf ∨ st.confidence < 3 / 10))) ∧
    (st.current_regime = r → ¬ st.confidence < 3 / 10 →
      update_state st r conf ts price =
        { st with duration := st.duration + 1,
                  confidence := (st.confidence + conf) / 2 }) ∧
    (st.current_regime = r → st.confidence < 3 / 10 →
      update_state st r conf ts price = ⟨r, conf, 1, ts, price⟩) ∧
    (st.current_regime ≠ r → ¬ 3 / 5 < conf → ¬ st.confidence < 3 / 10 →
      update_state st r conf ts price = st) := by
  rw [update_state_eq]
  refine ⟨?_, ?_, ?_, ?_⟩
  · split_ifs with h1 h2
    · simp only [RegimeState.mk.injEq]
      constructor
      · intro h
        refine ⟨h, ?_⟩
        rcases h1 with ⟨_, hgt⟩ | hlow
        · exact Or.inl hgt
        · exact Or.inr hlow
      · intro h
        exact h.1
    · constructor
      · intro h
        exact absurd rfl h
      · intro h
        exact absurd h2.symm h.1
    · constructor
      · intro h
        exact absurd rfl h
      · intro h
        rcases h.2 with hgt | hlow
        · exact absurd (Or.inl ⟨h.1, hgt⟩) h1
        · exact absurd (Or.inr hlow) h1
  · intro hreq hconf
    rw [if_neg, if_pos hreq]
    rintro (⟨hne, _⟩ | hlow)
    · exact hne hreq.symm
    · exact hconf hlow
  · intro hreq hconf
    rw [if_pos (Or.inr hconf)]
  · intro hne hgt hconf
    have h1 : ¬ ((r ≠ st.current_regime ∧ 3 / 5 < conf) ∨ st.confidence < 3 / 10) := by
      rintro (⟨_, hg⟩ | hlow)
      · exact hgt hg
      · exact hconf hlow
    rw [if_neg h1, if_neg hne]

/-- Witness for the amended C7 theorem: a confident Bull state switches
to Bear when Bear is detected with confidence 0.7. -/
theorem update_state_policy_witness :
    (update_state ⟨.Bull, 4 / 5, 2, 0, 100⟩ .Bear (7 / 10) 1 101).current_regime
      ≠ (⟨MarketRegime.Bull, 4 / 5, 2, 0, 100⟩ : RegimeState).current_regime := by
  have h := update_state_policy ⟨.Bull, 4 / 5, 2, 0, 100⟩ .Bear (7 / 10) 1 101
  exact h.1.mpr ⟨by decide, Or.inl (by norm_num)⟩

/-- Transition state (src/regimes/controller.rs `TransitionState`): the
stored floating-point `progress` field always equals
`current_step / duration` right after `new` and after every `advance`,
so it is modelled by the derived `TransitionState.progress`. -/
structure TransitionState where
  from_config : GeneratorConfig
  to_config : GeneratorConfig
  duration : ℕ
  current_step : ℕ
deriving DecidableEq, Repr

/-- Constructor (src/regimes/controller.rs `TransitionState::new`). -/
def TransitionState.new (a b : GeneratorConfig) (d : ℕ) : TransitionState :=
  ⟨a, b, d, 0⟩

/-- Progress fraction `current_step / duration`. -/
def TransitionState.progress (t : TransitionState) : ℚ :=
  (t.current_step : ℚ) / (t.duration : ℚ)

/-- One step (src/regimes/controller.rs `TransitionState::advance`):
increments `current_step` while it is below the duration. -/
def TransitionState.advance (t : TransitionState) : TransitionState :=
  if t.current_step < t.duration then
    { t with current_step := t.current_step + 1 }
  else t

/-- Completion check (src/regimes/controller.rs
`TransitionState::is_complete`). -/
def TransitionState.is_complete (t : TransitionState) : Bool :=
  decide (t.duration ≤ t.current_step)

/-- Interpolated configuration (src/regimes/controller.rs
`TransitionState::interpolated_config`): start from the source config,
linearly interpolate trend strength and volatility by the progress
fraction, and switch the trend direction to the target at progress 0.5.
-/
def TransitionState.interpolated_config (t : TransitionState) : GeneratorConfig :=
  let p := t.progress
  let cfg := t.from_config
  let cfg := { cfg with
    trend_strength := t.from_config.trend_strength +
      (t.to_config.trend_strength - t.from_config.trend_strength) * p }
  let cfg := { cfg with
    volatility := t.from_config.volatility +
      (t.to_config.volatility - t.from_config.volatility) * p }
  if 1 / 2 ≤ p then { cfg with trend_direction := t.to_config.trend_direction }
  else cfg

/-- `n` consecutive transition advance calls. -/
def advanceTN : ℕ → TransitionState → TransitionState
  | 0, t => t
  | n + 1, t => (advanceTN n t).advance

/-- Advancing a fresh transition `s ≤ D` times sets the step counter to
`s`. -/
theorem advanceTN_new (a b : GeneratorConfig) (d s : ℕ) (hs : s ≤ d) :
    advanceTN s (TransitionState.new a b d) = ⟨a, b, d, s⟩ := by
  induction s with
  | zero => rfl
  | succ s ih =>
    have hs2 : s ≤ d := Nat.le_of_succ_le hs
    simp only [advanceTN, ih hs2]
    unfold TransitionState.advance
    have : s < d := hs
    simp [this]

/-- C8: after `s` advance steps of a transition of duration `D > 0` from
config A to config B (with `s ≤ D`), the interpolated configuration has
`volatility = A.vol + (B.vol − A.vol)·(s/D)`, trend strength interpolated
by the same linear formula, and the trend direction of A while
`s/D < 0.5` and of B once `s/D ≥ 0.5` — exactly, in the rational model
of the fixed-point arithmetic, up to the representation of `s/D`. -/
theorem transition_interpolation (A B : GeneratorConfig) (D s : ℕ)
    (hD : 0 < D) (hs : s ≤ D) :
    (advanceTN s (TransitionState.new A B D)).interpolated_config.volatility
      = A.volatility + (B.volatility - A.volatility) * ((s : ℚ) / (D : ℚ)) ∧
    (advanceTN s (TransitionState.new A B D)).interpolated_config.trend_strength
      = A.trend_strength +
        (B.trend_strength - A.trend_strength) * ((s : ℚ) / (D : ℚ)) ∧
    (advanceTN s (TransitionState.new A B D)).interpolated_config.trend_direction
      = (if (1 : ℚ) / 2 ≤ (s : ℚ) / (D : ℚ) then B.trend_direction
         else A.trend_direction) := by
  rw [advanceTN_new A B D s hs]
  unfold TransitionState.interpolated_config TransitionState.progress
  dsimp only
  split_ifs with hp
  · exact ⟨rfl, rfl, rfl⟩
  · exact ⟨rfl, rfl, rfl⟩

/-- Concrete target configuration for the interpolation witness. -/
def volatileTarget : GeneratorConfig :=
  { GeneratorConfig.default with volatility := 5 / 100 }

/-- Witness for C8: one step into a duration-4 transition from the
default config (volatility 0.02) toward volatility 0.05 yields volatility
0.02 + 0.03·(1/4) = 0.0275 and keeps the source trend direction. -/
theorem transition_interpolation_witness :
    (advanceTN 1 (TransitionState.new GeneratorConfig.default volatileTarget 4)).interpolated_config.volatility
      = 2 / 100 + (5 / 100 - 2 / 100) * ((1 : ℚ) / 4) ∧
    (advanceTN 1 (TransitionState.new GeneratorConfig.default volatileTarget 4)).interpolated_config.trend_direction
      = TrendDirection.Sideways := by
  have h := transition_interpolation GeneratorConfig.default volatileTarget 4 1
    (by norm_num) (by norm_num)
  refine ⟨?_, ?_⟩
  · rw [h.1]
    norm_num [GeneratorConfig.default, volatileTarget, default_volatility]
  · rw [h.2.2]
    norm_num [GeneratorConfig.default, volatileTarget]

/-- One Newton iteration `x ← (x + value/x) / 2`, shared by both sqrt
helpers (src/regimes/statistics.rs line 262 and src/regimes/detector.rs
line 130). -/
def newtonStep (value x : ℚ) : ℚ :=
  (x + value / x) / 2

/-- The bounded Newton loop of src/regimes/statistics.rs
`RollingStatistics::sqrt_approximation`: iterate while
`|x − last_x| > 1e-6` and fewer than `max_iterations = 20` iterations
have run; `fuel` is the number of iterations still allowed.  Returns the
final `x` together with the number of iterations executed. -/
def sqrt_approximation_loop (value : ℚ) : ℕ → ℚ → ℚ → ℚ × ℕ
  | 0, x, _ => (x, 0)
  | f + 1, x, last_x =>
    if 1 / 1000000 < |x - last_x| then
      ((sqrt_approximation_loop value f (newtonStep value x) x).1,
       (sqrt_approximation_loop value f (newtonStep value x) x).2 + 1)
    else (x, 0)

/-- Result of src/regimes/statistics.rs
`RollingStatistics::sqrt_approximation`: 0 for nonpositive input,
otherwise the bounded Newton loop started at `x = value`, `last_x = 0`. -/
def sqrt_approximation (value : ℚ) : ℚ :=
  if value ≤ 0 then 0
  else (sqrt_approximation_loop value 20 value 0).1

/-- Number of Newton iterations executed by the statistics sqrt helper. -/
def sqrt_approximation_iterations (value : ℚ) : ℕ :=
  if value ≤ 0 then 0
  else (sqrt_approximation_loop value 20 value 0).2

/-- The bounded loop never runs more iterations than its fuel. -/
theorem sqrt_approximation_loop_le_fuel (value : ℚ) (f : ℕ) :
    ∀ x last_x, (sqrt_approximation_loop value f x last_x).2 ≤ f := by
  induction f with
  | zero => intro x last_x; exact Nat.le_refl 0
  | succ f ih =>
    intro x last_x
    unfold sqrt_approximation_loop
    split_ifs with h
    · exact Nat.succ_le_succ (ih _ _)
    · exact Nat.zero_le _

/-- C9 amended: the statistics sqrt helper (the one with the iteration
cap) performs at most 20 Newton iterations with convergence threshold
1e-6 and returns 0 for every nonpositive input.  The detector copy of
the helper shares the threshold and the nonpositive case but has no
iteration cap (see the counterexample). -/
theorem sqrt_approximation_terminates (value : ℚ) :
    sqrt_approximation_iterations value ≤ 20 ∧
    (value ≤ 0 → sqrt_approximation value = 0) := by
  constructor
  · unfold sqrt_approximation_iterations
    split_ifs with h
    · exact Nat.zero_le _
    · exact sqrt_approximation_loop_le_fuel value 20 value 0
  · intro h
    unfold sqrt_approximation
    rw [if_pos h]

/-- Witness for the amended C9 theorem at input −1. -/
theorem sqrt_approximation_terminates_witness :
    sqrt_approximation_iterations (-1) ≤ 20 ∧ sqrt_approximation (-1) = 0 :=
  ⟨(sqrt_approximation_terminates (-1)).1,
   (sqrt_approximation_terminates (-1)).2 (by norm_num)⟩

/-- The Newton iterates of the uncapped loop of src/regimes/detector.rs
`helpers::sqrt_approximation` on a positive input: `x₀ = value` and
`x_{k+1} = (x_k + value/x_k)/2`.  `newtonIter value k` is the value of
`x` when the while condition is checked for the (k+1)-th time. -/
def newtonIter (value : ℚ) : ℕ → ℚ
  | 0 => value
  | k + 1 => newtonStep value (newtonIter value k)

/-- The `last_x` variable when the while condition is checked for the
(k+1)-th time: initially 0, afterwards the previous iterate. -/
def newtonLast (value : ℚ) : ℕ → ℚ
  | 0 => 0
  | k + 1 => newtonIter value k

/-- The while condition of the uncapped detector loop at its (k+1)-th
check. -/
def newtonGuard (value : ℚ) (k : ℕ) : Prop :=
  1 / 1000000 < |newtonIter value k - newtonLast value k|

/-- The uncapped detector loop is still running after n executed
iterations: its condition held at every one of the first n+1 checks. -/
def newtonStillRunning (value : ℚ) (n : ℕ) : Prop :=
  ∀ k ≤ n, newtonGuard value k

/-- All Newton iterates of a positive input are positive. -/
theorem newtonIter_pos (value : ℚ) (hv : 0 < value) (k : ℕ) :
    0 < newtonIter value k := by
  induction k with
  | zero => exact hv
  | succ k ih =>
    show 0 < (newtonIter value k + value / newtonIter value k) / 2
    have h1 : 0 < value / newtonIter value k := div_pos hv ih
    positivity

/-- Each Newton iterate of a positive input is at least `value / 2^k`:
each step at most halves the iterate. -/
theorem newtonIter_lower (value : ℚ) (hv : 0 < value) (k : ℕ) :
    value / 2 ^ k ≤ newtonIter value k := by
  induction k with
  | zero =>
    show value / 2 ^ 0 ≤ value
    simp
  | succ k ih =>
    have hpos := newtonIter_pos value hv k
    have h1 : 0 ≤ value / newtonIter value k := le_of_lt (div_pos hv hpos)
    have h2 : newtonIter value k / 2 ≤ newtonIter value (k + 1) := by
      show newtonIter value k / 2 ≤ (newtonIter value k + value / newtonIter value k) / 2
      linarith
    have h3 : value / 2 ^ (k + 1) = value / 2 ^ k / 2 := by
      rw [pow_succ, div_div]
    rw [h3]
    linarith

/-- C9 counterexample: on the value 2^60 the uncapped detector helper is
still iterating after 20 executed iterations — its while condition holds
at all of the first 21 checks, because the iterate decays roughly by
halves from 2^60 and consecutive iterates still differ by more than
2^37 ≫ 1e-6.  This refutes the claimed 20-iteration bound for the
Newton helper of src/regimes/detector.rs. -/
theorem newton_uncapped_exceeds_twenty : newtonStillRunning (2 ^ 60) 20 := by
  intro k hk
  have hv : (0 : ℚ) < 2 ^ 60 := by positivity
  cases k with
  | zero =>
    show (1 : ℚ) / 1000000 < |2 ^ 60 - 0|
    rw [sub_zero, abs_of_pos hv]
    norm_num
  | succ k =>
    have hk19 : k ≤ 19 := by omega
    have hlow := newtonIter_lower (2 ^ 60) hv k
    have hpos := newtonIter_pos (2 ^ 60) hv k
    have hstep : newtonIter (2 ^ 60) (k + 1)
        = (newtonIter (2 ^ 60) k + 2 ^ 60 / newtonIter (2 ^ 60) k) / 2 := rfl
    show (1 : ℚ) / 1000000 <
        |newtonIter (2 ^ 60) (k + 1) - newtonIter (2 ^ 60) k|
    rw [hstep]
    set x := newtonIter (2 ^ 60) k with hx
    have hbig : (2199023255552 : ℚ) ≤ x := by
      have hmono : (2199023255552 : ℚ) ≤ 2 ^ 60 / 2 ^ k := by
        rw [le_div_iff₀ (by positivity)]
        have hklt : (2 : ℚ) ^ k ≤ 2 ^ 19 :=
          pow_le_pow_right₀ (by norm_num) hk19
        have h2 : (2199023255552 : ℚ) * 2 ^ k ≤ 2199023255552 * 2 ^ 19 :=
          mul_le_mul_of_nonneg_left hklt (by norm_num)
        calc (2199023255552 : ℚ) * 2 ^ k ≤ 2199023255552 * 2 ^ 19 := h2
          _ ≤ 2 ^ 60 := by norm_num
      exact le_trans hmono hlow
    set q : ℚ := 2 ^ 60 / x with hq
    have hfrac : q ≤ 524288 := by
      rw [hq, div_le_iff₀ hpos]
      have h3 : (524288 : ℚ) * 2199023255552 ≤ 524288 * x :=
        mul_le_mul_of_nonneg_left hbig (by norm_num)
      calc (2 : ℚ) ^ 60 = 524288 * 2199023255552 := by norm_num
        _ ≤ 524288 * x := h3
    have hd : (x + q) / 2 - x = -((x - q) / 2) := by ring
    rw [hd, abs_neg, abs_of_pos (by linarith)]
    linarith

/-- Tick record (src/types.rs `Tick`): price, volume, timestamp and an
optional bid/ask spread. -/
structure Tick where
  price : ℚ
  volume : ℕ
  timestamp : ℤ
  bid : Option ℚ
  ask : Option ℚ
deriving DecidableEq, Repr

/-- Seeded RNG stream position: the deterministic generator is identified
by its 64-bit key together with the number of samples already drawn.
The actual sample values come from the stream function `g : key → index
→ draw`, over which the determinism results are universally quantified —
`StdRng::seed_from_u64` with the sampling transform is such a function. -/
structure RngState where
  key : ℕ
  ix : ℕ
deriving DecidableEq, Repr

/-- Draw the next standard normal sample from the stream. -/
def drawNormal (g : ℕ → ℕ → ℚ) (r : RngState) : ℚ × RngState :=
  (g r.key r.ix, ⟨r.key, r.ix + 1⟩)

/-- Modelled from the spec: the Decimal-based price kernel that
src/generator.rs drives (`RandomWalkGenerator::new(config) -> Result`,
`next_price(&mut rng)`, `generate_ohlc(&mut rng, k)`,
`generate_volume(&mut rng)`) is not among the checked-in sources — the
file under src/algorithms is the older f64 variant owning its own RNG —
so the kernel state (config plus current price, §4.C) is modelled from
the spec. -/
structure PriceKernel where
  config : GeneratorConfig
  current_price : ℚ
deriving DecidableEq, Repr

/-- Modelled from the spec (§4.C): `drift = sign(trend_direction) ·
trend_strength`, Sideways → 0. -/
def effectiveDrift (c : GeneratorConfig) : ℚ :=
  match c.trend_direction with
  | .Bullish => c.trend_strength
  | .Bearish => -c.trend_strength
  | .Sideways => 0

/-- Modelled from the spec (§4.C next_price): additive-multiplicative
walk `p ← clamp(p + p·(drift + shock), min_price, max_price)` with
`shock = normal(0, volatility)` drawn from the shared orchestrator RNG. -/
def kernelNextPrice (g : ℕ → ℕ → ℚ) (k : PriceKernel) (r : RngState) :
    ℚ × PriceKernel × RngState :=
  let d := drawNormal g r
  let shock := k.config.volatility * d.1
  let raw := k.current_price + k.current_price * (effectiveDrift k.config + shock)
  let p := min (max raw k.config.min_price) k.config.max_price
  (p, ⟨k.config, p⟩, d.2)

/-- Modelled from the spec (§4.C generate_ohlc, inner loop): `n` calls of
`next_price` tracking the running high and low. -/
def kernelOhlcLoop (g : ℕ → ℕ → ℚ) :
    ℕ → PriceKernel → RngState → ℚ → ℚ → (ℚ × ℚ) × PriceKernel × RngState
  | 0, k, r, hi, lo => ((hi, lo), k, r)
  | n + 1, k, r, hi, lo =>
    kernelOhlcLoop g n (kernelNextPrice g k r).2.1 (kernelNextPrice g k r).2.2
      (max hi (kernelNextPrice g k r).1) (min lo (kernelNextPrice g k r).1)

/-- Modelled from the spec (§4.C generate_ohlc): open is the current
price, `n` sub-ticks are drawn, close is the final price; with n = 0 all
four prices are the current price. -/
def kernelGenerateOhlc (g : ℕ → ℕ → ℚ) (k : PriceKernel) (r : RngState)
    (n : ℕ) : (ℚ × ℚ × ℚ × ℚ) × PriceKernel × RngState :=
  ((k.current_price,
    (kernelOhlcLoop g n k r k.current_price k.current_price).1.1,
    (kernelOhlcLoop g n k r k.current_price k.current_price).1.2,
    (kernelOhlcLoop g n k r k.current_price k.current_price).2.1.current_price),
   (kernelOhlcLoop g n k r k.current_price k.current_price).2)

/-- Modelled from the spec (§4.C generate_volume): draw
`normal(base_volume, base_volume · volume_volatility)`, clamp below at
0, truncate to u64. -/
def kernelGenerateVolume (g : ℕ → ℕ → ℚ) (c : GeneratorConfig)
    (r : RngState) : ℕ × RngState :=
  ((min (Int.floor (max ((c.base_volume : ℚ) *
      (1 + c.volume_volatility * (drawNormal g r).1)) 0)).toNat (2 ^ 64 - 1)),
   (drawNormal g r).2)

/-- Orchestrator state (src/generator.rs `MarketDataGenerator`): RNG,
configuration, price kernel and the current timestamp.  The optional
regime detector/controller fields are `None` at construction and stay
`None` under the operations considered here. -/
structure MarketDataGenerator where
  rng : RngState
  config : GeneratorConfig
  price_generator : PriceKernel
  current_timestamp : ℤ
deriving DecidableEq, Repr

/-- The state built by src/generator.rs `MarketDataGenerator::with_config`
after successful validation: the RNG is seeded from `config.seed` when
present and from OS entropy otherwise, the kernel starts at the starting
price, and the initial timestamp is the wall clock reading `now`. -/
def mkGenerator (cfg : GeneratorConfig) (now : ℤ) (entropy : ℕ) :
    MarketDataGenerator :=
  ⟨⟨cfg.seed.getD entropy, 0⟩, cfg, ⟨cfg, cfg.starting_price⟩, now⟩

/-- Constructor (src/generator.rs `MarketDataGenerator::with_config`):
validates, then builds the state; `now` is the `SystemTime::now()`
reading and `entropy` the OS entropy consumed when no seed is set. -/
def with_config (cfg : GeneratorConfig) (now : ℤ) (entropy : ℕ) :
    Except String MarketDataGenerator :=
  match cfg.validate with
  | .error _ => .error "Invalid configuration"
  | .ok _ => .ok (mkGenerator cfg now entropy)

/-- One candle (src/generator.rs `generate_ohlc`, regime control
disabled): OHLC from ten sub-ticks, a volume draw, the current timestamp
stamped on the candle, and the timestamp advanced by the interval. -/
def generate_ohlc (g : ℕ → ℕ → ℚ) (s : MarketDataGenerator) :
    OHLC × MarketDataGenerator :=
  (OHLC.new (kernelGenerateOhlc g s.price_generator s.rng 10).1.1
    (kernelGenerateOhlc g s.price_generator s.rng 10).1.2.1
    (kernelGenerateOhlc g s.price_generator s.rng 10).1.2.2.1
    (kernelGenerateOhlc g s.price_generator s.rng 10).1.2.2.2
    (kernelGenerateVolume g s.price_generator.config
      (kernelGenerateOhlc g s.price_generator s.rng 10).2.2).1
    s.current_timestamp,
   ⟨(kernelGenerateVolume g s.price_generator.config
       (kernelGenerateOhlc g s.price_generator s.rng 10).2.2).2,
    s.config,
    (kernelGenerateOhlc g s.price_generator s.rng 10).2.1,
    s.current_timestamp + (s.config.time_interval.millis : ℤ)⟩)

/-- One tick (src/generator.rs `generate_tick`): one price step, one
volume draw, a synthesized 0.1 percent spread
(`half_spread = price · 0.001 / 2`), and the timestamp advanced by
1000 ms. -/
def generate_tick (g : ℕ → ℕ → ℚ) (s : MarketDataGenerator) :
    Tick × MarketDataGenerator :=
  (⟨(kernelNextPrice g s.price_generator s.rng).1,
    (kernelGenerateVolume g s.price_generator.config
      (kernelNextPrice g s.price_generator s.rng).2.2).1,
    s.current_timestamp,
    some ((kernelNextPrice g s.price_generator s.rng).1 -
      (kernelNextPrice g s.price_generator s.rng).1 * (1 / 1000) / 2),
    some ((kernelNextPrice g s.price_generator s.rng).1 +
      (kernelNextPrice g s.price_generator s.rng).1 * (1 / 1000) / 2)⟩,
   ⟨(kernelGenerateVolume g s.price_generator.config
       (kernelNextPrice g s.price_generator s.rng).2.2).2,
    s.config,
    (kernelNextPrice g s.price_generator s.rng).2.1,
    s.current_timestamp + 1000⟩)

/-- Series generation (src/generator.rs `generate_series`): `n`
consecutive `generate_ohlc` calls. -/
def generate_series (g : ℕ → ℕ → ℚ) :
    ℕ → MarketDataGenerator → List OHLC × MarketDataGenerator
  | 0, s => ([], s)
  | n + 1, s =>
    ((generate_ohlc g s).1 :: (generate_series g n (generate_ohlc g s).2).1,
     (generate_series g n (generate_ohlc g s).2).2)

/-- The public call surface driven in the determinism claim. -/
inductive GenOp where
  | ohlc
  | series (n : ℕ)
  | tick
deriving DecidableEq, Repr

/-- An output item of a run: a candle or a tick. -/
inductive GenOut where
  | candle (c : OHLC)
  | tickOut (t : Tick)
deriving DecidableEq, Repr

/-- Drive an orchestrator through a call sequence, collecting all
outputs in order. -/
def runOps (g : ℕ → ℕ → ℚ) :
    List GenOp → MarketDataGenerator → List GenOut × MarketDataGenerator
  | [], s => ([], s)
  | .ohlc :: rest, s =>
    (GenOut.candle (generate_ohlc g s).1 ::
       (runOps g rest (generate_ohlc g s).2).1,
     (runOps g rest (generate_ohlc g s).2).2)
  | .series n :: rest, s =>
    ((generate_series g n s).1.map GenOut.candle ++
       (runOps g rest (generate_series g n s).2).1,
     (runOps g rest (generate_series g n s).2).2)
  | .tick :: rest, s =>
    (GenOut.tickOut (generate_tick g s).1 ::
       (runOps g rest (generate_tick g s).2).1,
     (runOps g rest (generate_tick g s).2).2)

/-- Zero a candle timestamp. -/
def stripOhlcTs (c : OHLC) : OHLC :=
  { c with timestamp := 0 }

/-- Zero an output timestamp. -/
def eraseOutTs : GenOut → GenOut
  | .candle c => .candle { c with timestamp := 0 }
  | .tickOut t => .tickOut { t with timestamp := 0 }

/-- A `generate_ohlc` step depends on the timestamp only through the
stamped timestamp field: states agreeing on RNG, config and kernel
produce the same candle up to its timestamp and evolve to states again
agreeing on RNG, config and kernel. -/
theorem generate_ohlc_split (g : ℕ → ℕ → ℚ) (a b : MarketDataGenerator)
    (h1 : a.rng = b.rng) (h2 : a.config = b.config)
    (h3 : a.price_generator = b.price_generator) :
    stripOhlcTs (generate_ohlc g a).1 = stripOhlcTs (generate_ohlc g b).1 ∧
    (generate_ohlc g a).2.rng = (generate_ohlc g b).2.rng ∧
    (generate_ohlc g a).2.config = (generate_ohlc g b).2.config ∧
    (generate_ohlc g a).2.price_generator
      = (generate_ohlc g b).2.price_generator := by
  obtain ⟨ar, ac, ak, at1⟩ := a
  obtain ⟨br, bc, bk, bt⟩ := b
  cases h1
  cases h2
  cases h3
  dsimp only [generate_ohlc, stripOhlcTs, OHLC.new]
  exact ⟨rfl, rfl, rfl, rfl⟩

/-- A `generate_tick` step likewise only uses the timestamp for
stamping. -/
theorem generate_tick_split (g : ℕ → ℕ → ℚ) (a b : MarketDataGenerator)
    (h1 : a.rng = b.rng) (h2 : a.config = b.config)
    (h3 : a.price_generator = b.price_generator) :
    ({ (generate_tick g a).1 with timestamp := 0 }
       = { (generate_tick g b).1 with timestamp := 0 }) ∧
    (generate_tick g a).2.rng = (generate_tick g b).2.rng ∧
    (generate_tick g a).2.config = (generate_tick g b).2.config ∧
    (generate_tick g a).2.price_generator
      = (generate_tick g b).2.price_generator := by
  obtain ⟨ar, ac, ak, at1⟩ := a
  obtain ⟨br, bc, bk, bt⟩ := b
  cases h1
  cases h2
  cases h3
  dsimp only [generate_tick]
  exact ⟨rfl, rfl, rfl, rfl⟩

/-- A whole series run depends on the timestamp only through the stamped
timestamps. -/
theorem generate_series_split (g : ℕ → ℕ → ℚ) (n : ℕ) :
    ∀ (a b : MarketDataGenerator), a.rng = b.rng → a.config = b.config →
    a.price_generator = b.price_generator →
    ((generate_series g n a).1.map stripOhlcTs
       = (generate_series g n b).1.map stripOhlcTs) ∧
    (generate_series g n a).2.rng = (generate_series g n b).2.rng ∧
    (generate_series g n a).2.config = (generate_series g n b).2.config ∧
    (generate_series g n a).2.price_generator
      = (generate_series g n b).2.price_generator := by
  induction n with
  | zero =>
    intro a b h1 h2 h3
    exact ⟨rfl, h1, h2, h3⟩
  | succ n ih =>
    intro a b h1 h2 h3
    have ho := generate_ohlc_split g a b h1 h2 h3
    have hrec := ih (generate_ohlc g a).2 (generate_ohlc g b).2
      ho.2.1 ho.2.2.1 ho.2.2.2
    simp only [generate_series, List.map_cons]
    refine ⟨?_, hrec.2.1, hrec.2.2.1, hrec.2.2.2⟩
    rw [hrec.1, ho.1]

/-- A full run of the call surface depends on the timestamp only through
the stamped timestamps. -/
theorem runOps_split (g : ℕ → ℕ → ℚ) (ops : List GenOp) :
    ∀ (a b : MarketDataGenerator), a.rng = b.rng → a.config = b.config →
    a.price_generator = b.price_generator →
    ((runOps g ops a).1.map eraseOutTs = (runOps g ops b).1.map eraseOutTs) ∧
    (runOps g ops a).2.rng = (runOps g ops b).2.rng ∧
    (runOps g ops a).2.config = (runOps g ops b).2.config ∧
    (runOps g ops a).2.price_generator = (runOps g ops b).2.price_generator := by
  induction ops with
  | nil =>
    intro a b h1 h2 h3
    exact ⟨rfl, h1, h2, h3⟩
  | cons op rest ih =>
    intro a b h1 h2 h3
    cases op with
    | ohlc =>
      have ho := generate_ohlc_split g a b h1 h2 h3
      have hrec := ih (generate_ohlc g a).2 (generate_ohlc g b).2
        ho.2.1 ho.2.2.1 ho.2.2.2
      simp only [runOps, List.map_cons]
      refine ⟨?_, hrec.2.1, hrec.2.2.1, hrec.2.2.2⟩
      rw [hrec.1]
      have : eraseOutTs (GenOut.candle (generate_ohlc g a).1)
          = eraseOutTs (GenOut.candle (generate_ohlc g b).1) := by
        show GenOut.candle { (generate_ohlc g a).1 with timestamp := 0 }
            = GenOut.candle { (generate_ohlc g b).1 with timestamp := 0 }
        exact congrArg GenOut.candle ho.1
      rw [this]
    | series n =>
      have hs := generate_series_split g n a b h1 h2 h3
      have hrec := ih (generate_series g n a).2 (generate_series g n b).2
        hs.2.1 hs.2.2.1 hs.2.2.2
      simp only [runOps, List.map_append, List.map_map]
      refine ⟨?_, hrec.2.1, hrec.2.2.1, hrec.2.2.2⟩
      rw [hrec.1]
      have hmap : ∀ (l : List OHLC),
          l.map (eraseOutTs ∘ GenOut.candle)
            = (l.map stripOhlcTs).map GenOut.candle := by
        intro l
        rw [List.map_map]
        rfl
      rw [hmap, hmap, hs.1]
    | tick =>
      have ht := generate_tick_split g a b h1 h2 h3
      have hrec := ih (generate_tick g a).2 (generate_tick g b).2
        ht.2.1 ht.2.2.1 ht.2.2.2
      simp only [runOps, List.map_cons]
      refine ⟨?_, hrec.2.1, hrec.2.2.1, hrec.2.2.2⟩
      rw [hrec.1]
      have : eraseOutTs (GenOut.tickOut (generate_tick g a).1)
          = eraseOutTs (GenOut.tickOut (generate_tick g b).1) := by
        show GenOut.tickOut { (generate_tick g a).1 with timestamp := 0 }
            = GenOut.tickOut { (generate_tick g b).1 with timestamp := 0 }
        exact congrArg GenOut.tickOut ht.1
      rw [this]

/-- The default configuration with seed 42 (the spec S1 scenario shape). -/
def cfg42 : GeneratorConfig :=
  { GeneratorConfig.default with seed := some 42 }

/-- A concrete RNG stream instantiation for the counterexample runs. -/
def zeroDraw : ℕ → ℕ → ℚ :=
  fun _ _ => 0

/-- The timestamp of an output item. -/
def outTs : GenOut → ℤ
  | .candle c => c.timestamp
  | .tickOut t => t.timestamp

/-- C1 counterexample: two orchestrators built by `with_config` from the
same validated, seeded configuration but at different wall-clock instants
(`SystemTime::now()` readings 0 and 1000) return first candles whose
timestamps are 0 and 1000 respectively, so the outputs are not identical
on every field — the timestamp field depends on the construction-time
clock, which is not part of the configuration.  (The repository's own
determinism test compares only open/close for this reason.) -/
theorem generator_outputs_differ_across_clock :
    cfg42.seed = some 42 ∧
    with_config cfg42 0 0 = .ok (mkGenerator cfg42 0 0) ∧
    with_config cfg42 1000 0 = .ok (mkGenerator cfg42 1000 0) ∧
    (runOps zeroDraw [GenOp.ohlc] (mkGenerator cfg42 0 0)).1.map outTs = [0] ∧
    (runOps zeroDraw [GenOp.ohlc] (mkGenerator cfg42 1000 0)).1.map outTs
      = [1000] ∧
    (runOps zeroDraw [GenOp.ohlc] (mkGenerator cfg42 0 0)).1
      ≠ (runOps zeroDraw [GenOp.ohlc] (mkGenerator cfg42 1000 0)).1 := by
  have hval : cfg42.validate = .ok () := by
    norm_num [GeneratorConfig.validate, cfg42, GeneratorConfig.default,
      default_starting_price, default_min_price, default_max_price,
      default_volatility]
  have h4 : (runOps zeroDraw [GenOp.ohlc] (mkGenerator cfg42 0 0)).1.map outTs
      = [0] := rfl
  have h5 : (runOps zeroDraw [GenOp.ohlc] (mkGenerator cfg42 1000 0)).1.map outTs
      = [1000] := rfl
  refine ⟨rfl, ?_, ?_, h4, h5, ?_⟩
  · unfold with_config
    rw [hval]
  · unfold with_config
    rw [hval]
  · intro h
    have hmap := congrArg (List.map outTs) h
    rw [h4, h5] at hmap
    exact absurd hmap (by decide)

/-- C1 amended: for a validated configuration whose seed is `Some(s)`,
two orchestrators driven through the same `generate_ohlc` /
`generate_series` / `generate_tick` call sequence return outputs that are
identical on every field except the timestamps, for any RNG stream
realization and regardless of the OS entropy available at construction;
when the two construction-time clock readings coincide (or
`set_timestamp` aligns them) the outputs are identical on every field,
timestamps included. -/
theorem generator_determinism_modulo_timestamp (g : ℕ → ℕ → ℚ)
    (cfg : GeneratorConfig) (sd : ℕ) (now1 now2 : ℤ) (e1 e2 : ℕ)
    (ops : List GenOp) (hseed : cfg.seed = some sd) :
    ((runOps g ops (mkGenerator cfg now1 e1)).1.map eraseOutTs
      = (runOps g ops (mkGenerator cfg now2 e2)).1.map eraseOutTs) ∧
    (now1 = now2 →
      runOps g ops (mkGenerator cfg now1 e1)
        = runOps g ops (mkGenerator cfg now2 e2)) := by
  have hm : ∀ (now : ℤ) (e : ℕ), mkGenerator cfg now e
      = ⟨⟨sd, 0⟩, cfg, ⟨cfg, cfg.starting_price⟩, now⟩ := by
    intro now e
    unfold mkGenerator
    rw [hseed]
    rfl
  constructor
  · rw [hm now1 e1, hm now2 e2]
    exact (runOps_split g ops
      ⟨⟨sd, 0⟩, cfg, ⟨cfg, cfg.starting_price⟩, now1⟩
      ⟨⟨sd, 0⟩, cfg, ⟨cfg, cfg.starting_price⟩, now2⟩ rfl rfl rfl).1
  · intro h
    rw [hm now1 e1, hm now2 e2, h]

/-- Witness for the amended C1 theorem: same seed 42, same clock reading
5, different entropy, one tick each — identical outputs modulo (here
even including) timestamps. -/
theorem generator_determinism_witness :
    (runOps zeroDraw [GenOp.tick] (mkGenerator cfg42 5 0)).1.map eraseOutTs
      = (runOps zeroDraw [GenOp.tick] (mkGenerator cfg42 5 1)).1.map eraseOutTs :=
  (generator_determinism_modulo_timestamp zeroDraw cfg42 42 5 5 0 1
    [GenOp.tick] rfl).1

end MarketData
